import Mathlib

/-!
Shallow embedding of the ChatGPT-export importer core
(`internal/importer`, `internal/storage` of the repository).

Modelling conventions:
* Go `time.Time` is modelled by `GoTime`, an instant measured in
  nanoseconds since the Unix epoch.  Go's zero time (January 1, year 1,
  00:00:00 UTC) is the constant `goZeroTime`; `GoTime.isZero` mirrors
  `time.Time.IsZero`.
* A raw `*float64` export timestamp is modelled, after the
  `math.Modf` / `int64` decomposition performed by `toTime`, as a pair
  `TS` of integer seconds and nanoseconds; `time.Unix(sec, nsec)` is the
  instant `sec * 1e9 + nsec` nanoseconds since the epoch.
* Go strings are modelled as Lean `String` (sequences of characters);
  the byte-level operations of the source (`len`, slicing) are modelled
  at character granularity, which coincides on the ASCII inputs used
  throughout.
* A Go `map[string]T` is modelled as an association list
  `List (String × T)` in document order with first-match lookup;
  `sort.Slice` is modelled as a deterministic insertion sort over the
  source's comparator.
-/

/-- Go `time.Time`, as nanoseconds since the Unix epoch. -/
structure GoTime where
  ns : Int
deriving DecidableEq, Repr

/-- Nanoseconds from Go's zero time (Jan 1, year 1 UTC) to the Unix epoch,
negated: the zero time lies `62135596800` seconds before the epoch. -/
def goZeroNs : Int := -62135596800 * 1000000000

/-- Go's zero `time.Time` instant. -/
def goZeroTime : GoTime := ⟨goZeroNs⟩

/-- Mirrors `time.Time.IsZero`: true exactly at Go's zero instant. -/
def GoTime.isZero (t : GoTime) : Bool := t.ns = goZeroNs

/-- A raw export timestamp (fractional seconds since epoch), already
decomposed as by `math.Modf` and the `int64` casts inside `toTime`:
integer seconds and remaining nanoseconds. -/
structure TS where
  sec : Int
  nsec : Int
deriving DecidableEq, Repr

/-- Characters trimmed by Go's `strings.TrimSpace` in the Latin-1 range. -/
def isGoSpace (c : Char) : Bool :=
  c = ' ' || c = '\t' || c = '\n' || c = '\x0b' || c = '\x0c' || c = '\r' ||
  c = '\x85' || c = '\xa0'

/-- Mirrors `strings.TrimSpace`: drop leading and trailing white space. -/
def goTrimSpace (s : String) : String :=
  String.mk (((s.data.dropWhile isGoSpace).reverse.dropWhile isGoSpace).reverse)

/-- Mirrors `strings.ToLower` (ASCII range). -/
def goToLower (s : String) : String :=
  String.mk (s.data.map Char.toLower)

/-- Mirrors `strings.HasSuffix`. -/
def goHasSuffix (s suffix : String) : Bool :=
  suffix.data.reverse.isPrefixOf s.data.reverse

/-- Mirrors `strings.ReplaceAll(s, " ", "-")` (single-character pattern,
hence a character-wise map). -/
def goReplaceSpaceDash (s : String) : String :=
  String.mk (s.data.map (fun c => if c = ' ' then '-' else c))

/-- Lexicographic comparison of character lists; the order Go's `<`
induces on UTF-8 strings (byte order coincides with code-point order). -/
def goCharListLt : List Char → List Char → Bool
  | [], [] => false
  | [], _ :: _ => true
  | _ :: _, [] => false
  | a :: as, b :: bs => if a = b then goCharListLt as bs else decide (a < b)

/-- Mirrors Go's `<` on strings. -/
def goStringLt (s t : String) : Bool := goCharListLt s.data t.data

/-- First-match lookup in an association list, modelling `m[k]` on a Go
map whose keys are distinct. -/
def goLookup {α : Type} (m : List (String × α)) (k : String) : Option α :=
  match m with
  | [] => none
  | (k', v) :: rest => if k' = k then some v else goLookup rest k

/-- Mirrors Go map assignment `m[k] = v`: replace the entry with key `k`,
or append a fresh entry. -/
def goInsert {α : Type} (m : List (String × α)) (k : String) (v : α) :
    List (String × α) :=
  match m with
  | [] => [(k, v)]
  | (k', v') :: rest =>
    if k' = k then (k, v) :: rest else (k', v') :: goInsert rest k v

/-- Insert `a` into `l` before the first element `b` with `less a b`;
building block of the insertion-sort model of `sort.Slice`. -/
def insertBy {α : Type} (less : α → α → Bool) (a : α) : List α → List α
  | [] => [a]
  | b :: l => if less a b then a :: b :: l else b :: insertBy less a l

/-- Deterministic model of `sort.Slice` with comparator `less`. -/
def sortBy {α : Type} (less : α → α → Bool) : List α → List α
  | [] => []
  | a :: l => insertBy less a (sortBy less l)

/-- Conversion of days since the Unix epoch to a civil `(year, month, day)`
date, as performed by Go's `time.Date` formatting path. -/
def civilFromDays (days : Int) : Int × Nat × Nat :=
  let z := days + 719468
  let era : Int := Int.fdiv z 146097
  let doe : Nat := (z - era * 146097).toNat
  let yoe : Nat := (doe - doe / 1460 + doe / 36524 - doe / 146096) / 365
  let y : Int := (yoe : Int) + era * 400
  let doy : Nat := doe - (365 * yoe + yoe / 4 - yoe / 100)
  let mp : Nat := (5 * doy + 2) / 153
  let d : Nat := doy - (153 * mp + 2) / 5 + 1
  let m : Nat := if mp < 10 then mp + 3 else mp - 9
  (if m ≤ 2 then y + 1 else y, m, d)

/-- Zero-padded two-digit decimal rendering. -/
def pad2 (n : Nat) : String :=
  if n < 10 then "0" ++ toString n else toString n

/-- Zero-padded four-digit decimal rendering. -/
def pad4 (n : Nat) : String :=
  if n < 10 then "000" ++ toString n
  else if n < 100 then "00" ++ toString n
  else if n < 1000 then "0" ++ toString n
  else toString n

/-- Four-digit year rendering, with a sign for years before year 0. -/
def padYear (y : Int) : String :=
  if y < 0 then "-" ++ pad4 (-y).toNat else pad4 y.toNat

/-- Seconds-of-day component of an instant. -/
def goSecOfDay (t : GoTime) : Nat :=
  (Int.fmod (Int.fdiv t.ns 1000000000) 86400).toNat

/-- Civil date of an instant (UTC). -/
def goCivil (t : GoTime) : Int × Nat × Nat :=
  civilFromDays (Int.fdiv (Int.fdiv t.ns 1000000000) 86400)

/-- Mirrors `t.Format("2006-01-02")` in UTC. -/
def formatDate (t : GoTime) : String :=
  let c := goCivil t
  padYear c.1 ++ "-" ++ pad2 c.2.1 ++ "-" ++ pad2 c.2.2

/-- Mirrors `t.Format("20060102150405")` in UTC. -/
def formatStamp (t : GoTime) : String :=
  let c := goCivil t
  let s := goSecOfDay t
  padYear c.1 ++ pad2 c.2.1 ++ pad2 c.2.2 ++
    pad2 (s / 3600) ++ pad2 (s % 3600 / 60) ++ pad2 (s % 60)

/-! ### Export data model (`internal/importer`) -/

/-- Author block of a raw export message (`exportAuthor`). -/
structure ExportAuthor where
  Role : String
deriving DecidableEq, Repr

/-- Content block of a raw export message (`exportContent`).  A part is
`some s` when the raw JSON part unmarshals as the string `s`, `none` for
any non-string part. -/
structure ExportContent where
  ContentType : String
  Parts : List (Option String)
deriving DecidableEq, Repr

/-- Raw export message (`exportMessage`). -/
structure ExportMessage where
  ID : String
  Author : ExportAuthor
  CreateTime : Option TS
  UpdateTime : Option TS
  Content : ExportContent
deriving DecidableEq, Repr

/-- Raw export node (`exportNode`). -/
structure ExportNode where
  ID : String
  Parent : String
  Children : List String
  Message : Option ExportMessage
deriving DecidableEq, Repr

/-- Raw export conversation (`exportConversation`).  The mapping is the
JSON object in document order. -/
structure ExportConversation where
  ID : String
  ConversationID : String
  Title : String
  CreateTime : Option TS
  UpdateTime : Option TS
  CurrentNode : String
  Mapping : List (String × ExportNode)
deriving DecidableEq, Repr

/-- Persisted message (`models.Message`). -/
structure Message where
  ID : String
  Author : String
  Content : String
  CreatedAt : GoTime
deriving DecidableEq, Repr

/-- Persisted conversation record (`models.Conversation`). -/
structure Conversation where
  ID : String
  Title : String
  Summary : String
  DateStarted : String
  DateEnded : String
  SourceID : String
  Messages : List Message
  CreatedAt : GoTime
  UpdatedAt : GoTime
deriving DecidableEq, Repr

/-- Mirrors `toTime`: decode an optional raw timestamp; `time.Unix(sec,
nsec).UTC()` is the instant `sec*1e9 + nsec`, and a decoded instant equal
to Go's zero time is reported as absent. -/
def toTime : Option TS → Option GoTime
  | none => none
  | some v =>
    let t : GoTime := ⟨v.sec * 1000000000 + v.nsec⟩
    if t.isZero then none else some t

/-- Mirrors `timestampOrZero`. -/
def timestampOrZero (value : Option TS) : GoTime :=
  match toTime value with
  | some t => t
  | none => goZeroTime

/-- Mirrors the nil-safe method `(*exportMessage).GetCreateTime`. -/
def GetCreateTime : Option ExportMessage → Option TS
  | none => none
  | some m => m.CreateTime

/-- Mirrors `collectStringParts`. -/
def collectStringParts (parts : List (Option String)) : String :=
  let builder := parts.foldl
    (fun acc part =>
      match part with
      | none => acc
      | some text =>
        let cleaned := goTrimSpace text
        if cleaned = "" then acc
        else if acc.length > 0 then acc ++ "\n\n" ++ cleaned
        else acc ++ cleaned)
    ""
  goTrimSpace builder

/-- Mirrors `extractText`. -/
def extractText (content : ExportContent) : String :=
  if content.ContentType = "text" then collectStringParts content.Parts
  else if content.ContentType = "multimodal_text" then
    collectStringParts content.Parts
  else ""

/-- Mirrors `truncate`. -/
def truncate (text : String) (limit : Nat) : String :=
  if text.length ≤ limit then text
  else
    let trimmed := goTrimSpace (String.mk (text.data.take limit))
    if goHasSuffix trimmed "..." then trimmed else trimmed ++ "..."

/-- Mirrors `firstNonEmpty`. -/
def firstNonEmpty : List String → String
  | [] => ""
  | v :: rest =>
    if goTrimSpace v ≠ "" then goTrimSpace v else firstNonEmpty rest

/-- Mirrors `newDeterministicID`. -/
def newDeterministicID (seed : String) (t : GoTime) : String :=
  let base := goReplaceSpaceDash (goToLower seed)
  let base := if base = "" then "conversation" else base
  base ++ "-" ++ formatStamp t

/-- Comparator of `timelineByTimestamps`' `sort.Slice` call. -/
def timelineLess (a b : ExportNode) : Bool :=
  match toTime (GetCreateTime a.Message), toTime (GetCreateTime b.Message) with
  | some ti, some tj =>
    if ti = tj then goStringLt a.ID b.ID else decide (ti.ns < tj.ns)
  | some _, none => true
  | none, some _ => false
  | none, none => goStringLt a.ID b.ID

/-- Mirrors `timelineByTimestamps`: all mapping nodes sorted by the
comparator. -/
def timelineByTimestamps (raw : ExportConversation) : List ExportNode :=
  sortBy timelineLess (raw.Mapping.map Prod.snd)

/-- Fuel-indexed parent walk of `traversalPath`'s loop.  Each element
pairs the visited key (the loop's `nodeID`) with the node looked up in
the mapping; the node is appended before the cycle guard fires, exactly
as in the source. -/
def walkAux (mapping : List (String × ExportNode)) :
    Nat → List String → String → List (String × ExportNode)
  | 0, _, _ => []
  | fuel + 1, seen, nodeID =>
    if nodeID = "" then []
    else
      match goLookup mapping nodeID with
      | none => []
      | some node =>
        (nodeID, node) ::
          (if seen.contains nodeID then []
           else walkAux mapping fuel (nodeID :: seen) node.Parent)

/-- The parent walk from the current-leaf pointer, run with enough fuel
for the loop to reach one of its natural exits (see the termination
theorem below). -/
def traversalWalk (raw : ExportConversation) : List (String × ExportNode) :=
  walkAux raw.Mapping (raw.Mapping.length + 1) [] raw.CurrentNode

/-- Mirrors `traversalPath`: walk from `current_node` and reverse to
chronological order, falling back to the timestamp ordering when there
is no current-leaf pointer or the walk is empty. -/
def traversalPath (raw : ExportConversation) : List ExportNode :=
  if raw.CurrentNode = "" then timelineByTimestamps raw
  else
    let path := ((traversalWalk raw).map Prod.snd).reverse
    if path.length = 0 then timelineByTimestamps raw else path

/-! ### Record normalizer (`convertConversation`) -/

/-- Loop state of `convertConversation`'s fold over the timeline:
`earliest`/`latest` combine Go's `hasEarliest`/`earliest` pairs as
options. -/
structure FoldSt where
  earliest : Option GoTime
  latest : Option GoTime
  firstUser : String
  firstAssistant : String
  messages : List Message
deriving DecidableEq, Repr

/-- Initial loop state. -/
def initSt : FoldSt := ⟨none, none, "", "", []⟩

/-- One iteration of `convertConversation`'s loop body over a timeline
node. -/
def stepNode (st : FoldSt) (node : ExportNode) : FoldSt :=
  match node.Message with
  | none => st
  | some msg =>
    let st :=
      match toTime msg.CreateTime with
      | none => st
      | some ts =>
        let e :=
          match st.earliest with
          | none => some ts
          | some e => some (if ts.ns < e.ns then ts else e)
        let l :=
          match st.latest with
          | none => some ts
          | some l => some (if l.ns < ts.ns then ts else l)
        { st with earliest := e, latest := l }
    let text := extractText msg.Content
    if text = "" then st
    else
      let role := goToLower msg.Author.Role
      if role = "user" then
        { st with
          firstUser := if st.firstUser = "" then text else st.firstUser,
          messages := st.messages ++
            [⟨node.ID, role, text, timestampOrZero msg.CreateTime⟩] }
      else if role = "assistant" then
        { st with
          firstAssistant :=
            if st.firstAssistant = "" then text else st.firstAssistant,
          messages := st.messages ++
            [⟨node.ID, role, text, timestampOrZero msg.CreateTime⟩] }
      else st

/-- The fold of `convertConversation`'s loop over the reconstructed
timeline. -/
def foldStateOf (raw : ExportConversation) : FoldSt :=
  (traversalPath raw).foldl stepNode initSt

/-- The `earliest`/`hasEarliest` pair at the end of `convertConversation`:
the earliest message timestamp, falling back to the conversation-level
create time. -/
def earliestOf (raw : ExportConversation) : Option GoTime :=
  match (foldStateOf raw).earliest with
  | some e => some e
  | none => toTime raw.CreateTime

/-- The `latest`/`hasLatest` pair at the end of `convertConversation`. -/
def latestOf (raw : ExportConversation) : Option GoTime :=
  match (foldStateOf raw).latest with
  | some l => some l
  | none => toTime raw.UpdateTime

/-- The `summary` local of `convertConversation`. -/
def summaryOf (raw : ExportConversation) : String :=
  let summary0 :=
    truncate (firstNonEmpty [(foldStateOf raw).firstUser,
      (foldStateOf raw).firstAssistant]) 240
  if summary0 = "" then "No summary available" else summary0

/-- The `title` local of `convertConversation`. -/
def titleOf (raw : ExportConversation) : String :=
  let title0 := goTrimSpace raw.Title
  if title0 = "" then
    let t := truncate (summaryOf raw) 80
    if t = "" then "Untitled conversation" else t
  else title0

/-- The `createdAt` local of `convertConversation`; `now` is reached only
when no creation instant could be derived from the export. -/
def createdAtOf (raw : ExportConversation) (now : GoTime) : GoTime :=
  match earliestOf raw with
  | some e => e
  | none => now

/-- The `updatedAt` local of `convertConversation`. -/
def updatedAtOf (raw : ExportConversation) (now : GoTime) : GoTime :=
  match latestOf raw with
  | some l => l
  | none => createdAtOf raw now

/-- The `id` local of `convertConversation`: trimmed alternate id, else
trimmed primary id, else the deterministic fallback. -/
def idOf (raw : ExportConversation) (now : GoTime) : String :=
  let id0 := goTrimSpace raw.ConversationID
  let id1 := if id0 = "" then goTrimSpace raw.ID else id0
  if id1 = "" then newDeterministicID (titleOf raw) (createdAtOf raw now) else id1

/-- The record built by `convertConversation` once both guards have
passed. -/
def buildRecord (raw : ExportConversation) (now : GoTime) : Conversation :=
  { ID := idOf raw now
    Title := titleOf raw
    Summary := summaryOf raw
    DateStarted := match earliestOf raw with | some e => formatDate e | none => ""
    DateEnded := match latestOf raw with | some l => formatDate l | none => ""
    SourceID := idOf raw now
    Messages := (foldStateOf raw).messages
    CreatedAt := createdAtOf raw now
    UpdatedAt := updatedAtOf raw now }

/-- Mirrors `convertConversation`.  `now` is the value of
`time.Now().UTC()` at the call, the source's one non-input dependency. -/
def convertConversation (raw : ExportConversation) (now : GoTime) :
    Option Conversation :=
  if raw.Mapping.length = 0 then none
  else if (traversalPath raw).length = 0 then none
  else some (buildRecord raw now)

/-- Mirrors `LoadAndConvert` after the JSON decode: convert every
conversation of the decoded payload, dropping the discarded ones. -/
def loadAndConvert (payload : List ExportConversation) (now : GoTime) :
    List Conversation :=
  payload.filterMap (fun raw => convertConversation raw now)

/-! ### Merge policy (`Store.Upsert`, `internal/storage`) -/

/-- Mirrors `Store.Upsert` on the store's conversation map.  `now` is the
value of `time.Now().UTC()` taken at the top of the function. -/
def upsert (store : List (String × Conversation))
    (conversation : Conversation) (now : GoTime) :
    List (String × Conversation) :=
  let conversation :=
    match goLookup store conversation.ID with
    | some existing =>
      if conversation.CreatedAt.isZero then
        { conversation with CreatedAt := existing.CreatedAt }
      else conversation
    | none =>
      if conversation.CreatedAt.isZero then
        { conversation with CreatedAt := now }
      else conversation
  let conversation :=
    if conversation.UpdatedAt.isZero then
      { conversation with UpdatedAt := now }
    else conversation
  goInsert store conversation.ID conversation

/-! ### Derived predicates and measures -/

/-- A node that contributes no content: no message payload, or a content
type other than `"text"` / `"multimodal_text"`. -/
def contentless (n : ExportNode) : Bool :=
  match n.Message with
  | none => true
  | some m =>
    !(m.Content.ContentType = "text" || m.Content.ContentType = "multimodal_text")

/-- The conversation derives its creation instant from the export (some
message timestamp was found, or the conversation-level create time
parses); exactly when `convertConversation` does not fall back to
`time.Now()`. -/
def derivesCreate (raw : ExportConversation) : Bool :=
  (earliestOf raw).isSome

/-- Number of mapping keys not yet visited; the decreasing measure of the
parent walk. -/
def walkMeasure (mapping : List (String × ExportNode)) (seen : List String) : Nat :=
  ((mapping.map Prod.fst).filter (fun k => !seen.contains k)).length

/-! ### Concrete fixtures -/

/-- User node of the end-to-end example (spec §8). -/
def exHelloUser : ExportNode :=
  ⟨"n1", "", ["n2"], some ⟨"m1", ⟨"user"⟩, some ⟨1000, 0⟩, none, ⟨"text", [some "Hello"]⟩⟩⟩

/-- Assistant node of the end-to-end example. -/
def exHelloAsst : ExportNode :=
  ⟨"n2", "n1", [], some ⟨"m2", ⟨"assistant"⟩, some ⟨2000, 0⟩, none, ⟨"text", [some "Hi there"]⟩⟩⟩

/-- End-to-end example conversation: `conversation_id "c1"`, two linked
nodes. -/
def exHello : ExportConversation :=
  ⟨"", "c1", "", none, none, "n2", [("n1", exHelloUser), ("n2", exHelloAsst)]⟩

/-- A structural node with no message payload. -/
def exEmptyNode : ExportNode := ⟨"n1", "", [], none⟩

/-- A conversation with no ids, no timestamps and a single messageless
node. -/
def exBare : ExportConversation :=
  ⟨"", "", "", none, none, "", [("n1", exEmptyNode)]⟩

/-- Node `A` of the cyclic pair: its parent is `B`. -/
def exCycA : ExportNode := ⟨"A", "B", [], none⟩

/-- Node `B` of the cyclic pair: its parent is `A`. -/
def exCycB : ExportNode := ⟨"B", "A", [], none⟩

/-- A conversation whose parent chain is the cycle `A ↔ B`, entered at
`A`. -/
def exCyc : ExportConversation :=
  ⟨"x", "", "t", none, none, "A", [("A", exCycA), ("B", exCycB)]⟩

/-- Three hundred `'a'` characters. -/
def aText : String := String.mk (List.replicate 300 'a')

/-- A user node whose text is 300 `'a'` characters. -/
def exLongNode : ExportNode :=
  ⟨"n1", "", [], some ⟨"m1", ⟨"user"⟩, some ⟨5, 0⟩, none, ⟨"text", [some aText]⟩⟩⟩

/-- Conversation producing the 300-`'a'` summary. -/
def exLong : ExportConversation :=
  ⟨"cid", "", "t", none, none, "n1", [("n1", exLongNode)]⟩

/-- A node lacking any message timestamp. -/
def exPlainNode : ExportNode := ⟨"a", "", [], none⟩

/-- A node carrying a message timestamp. -/
def exTsNode : ExportNode :=
  ⟨"b", "", [], some ⟨"m", ⟨"user"⟩, some ⟨100, 0⟩, none, ⟨"text", [some "x"]⟩⟩⟩

/-- A conversation with one timestamped and one untimestamped node and no
current-leaf pointer. -/
def exMix : ExportConversation :=
  ⟨"", "", "", none, none, "", [("a", exPlainNode), ("b", exTsNode)]⟩

/-- An existing persisted record with explicit instants. -/
def recOld : Conversation :=
  ⟨"id1", "Old", "old summary", "", "", "id1", [], ⟨100⟩, ⟨200⟩⟩

/-- An incoming record with the same identifier and unset instants. -/
def recNew : Conversation :=
  ⟨"id1", "New", "new summary", "", "", "id1", [], goZeroTime, goZeroTime⟩

/-- An unrelated persisted record. -/
def recOther : Conversation :=
  ⟨"id2", "Other", "s", "", "", "id2", [], ⟨1⟩, ⟨2⟩⟩

/-- A two-record store. -/
def storeEx : List (String × Conversation) := [("id1", recOld), ("id2", recOther)]

/-! ### Projection lemmas for the built record -/

theorem buildRecord_ID (raw : ExportConversation) (now : GoTime) :
    (buildRecord raw now).ID = idOf raw now := by
  unfold buildRecord
  with_reducible rfl

theorem buildRecord_Title (raw : ExportConversation) (now : GoTime) :
    (buildRecord raw now).Title = titleOf raw := by
  unfold buildRecord
  with_reducible rfl

theorem buildRecord_Summary (raw : ExportConversation) (now : GoTime) :
    (buildRecord raw now).Summary = summaryOf raw := by
  unfold buildRecord
  with_reducible rfl

theorem buildRecord_DateStarted (raw : ExportConversation) (now : GoTime) :
    (buildRecord raw now).DateStarted =
      (match earliestOf raw with | some e => formatDate e | none => "") := by
  unfold buildRecord
  with_reducible rfl

theorem buildRecord_DateEnded (raw : ExportConversation) (now : GoTime) :
    (buildRecord raw now).DateEnded =
      (match latestOf raw with | some l => formatDate l | none => "") := by
  unfold buildRecord
  with_reducible rfl

theorem buildRecord_SourceID (raw : ExportConversation) (now : GoTime) :
    (buildRecord raw now).SourceID = idOf raw now := by
  unfold buildRecord
  with_reducible rfl

theorem buildRecord_Messages (raw : ExportConversation) (now : GoTime) :
    (buildRecord raw now).Messages = (foldStateOf raw).messages := by
  unfold buildRecord
  with_reducible rfl

theorem buildRecord_CreatedAt (raw : ExportConversation) (now : GoTime) :
    (buildRecord raw now).CreatedAt = createdAtOf raw now := by
  unfold buildRecord
  with_reducible rfl

theorem buildRecord_UpdatedAt (raw : ExportConversation) (now : GoTime) :
    (buildRecord raw now).UpdatedAt = updatedAtOf raw now := by
  unfold buildRecord
  with_reducible rfl

/-! ### Lemmas about the store map -/

theorem goLookup_goInsert_self {α : Type} (m : List (String × α)) (k : String) (v : α) :
    goLookup (goInsert m k v) k = some v := by
  induction m with
  | nil => simp [goInsert, goLookup]
  | cons p rest ih =>
    obtain ⟨k', v'⟩ := p
    by_cases h : k' = k
    · simp [goInsert, goLookup, h]
    · simp [goInsert, goLookup, h, ih]

theorem goLookup_goInsert_ne {α : Type} (m : List (String × α)) (k k' : String) (v : α)
    (h : k' ≠ k) : goLookup (goInsert m k v) k' = goLookup m k' := by
  induction m with
  | nil => simp [goInsert, goLookup, Ne.symm h]
  | cons p rest ih =>
    obtain ⟨k₀, v₀⟩ := p
    by_cases h0 : k₀ = k
    · subst h0
      simp [goInsert, goLookup, Ne.symm h]
    · simp only [goInsert, if_neg h0, goLookup]
      by_cases h1 : k₀ = k'
      · simp [h1]
      · simp [h1, ih]

theorem upsert_eq_goInsert (store : List (String × Conversation))
    (conversation : Conversation) (now : GoTime) :
    ∃ c : Conversation,
      upsert store conversation now = goInsert store conversation.ID c := by
  unfold upsert
  cases goLookup store conversation.ID <;> dsimp only <;> split <;> split <;>
    exact ⟨_, rfl⟩

/-- C2: for an incoming record whose identifier already exists, `Upsert`
preserves the existing creation instant when the incoming one is unset,
keeps the incoming creation instant when it is set, and sets the update
instant to the incoming value or, when unset, to the current time. -/
theorem c2_upsert_existing (store : List (String × Conversation))
    (conv : Conversation) (now : GoTime) (existing : Conversation)
    (h : goLookup store conv.ID = some existing) :
    goLookup (upsert store conv now) conv.ID = some
      { conv with
        CreatedAt := if conv.CreatedAt.isZero then existing.CreatedAt else conv.CreatedAt,
        UpdatedAt := if conv.UpdatedAt.isZero then now else conv.UpdatedAt } := by
  unfold upsert
  rw [h]
  dsimp only
  by_cases hc : conv.CreatedAt.isZero <;> by_cases hu : conv.UpdatedAt.isZero <;>
    simp [hc, hu, goLookup_goInsert_self]

/-- Witness for C2 at a concrete store: the merged record keeps the old
creation instant and refreshes the update instant to `now`. -/
theorem c2_upsert_existing_witness :
    goLookup storeEx recNew.ID = some recOld ∧
    goLookup (upsert storeEx recNew ⟨999⟩) recNew.ID = some
      { recNew with
        CreatedAt := if recNew.CreatedAt.isZero then recOld.CreatedAt else recNew.CreatedAt,
        UpdatedAt := if recNew.UpdatedAt.isZero then ⟨999⟩ else recNew.UpdatedAt } :=
  ⟨by decide, c2_upsert_existing storeEx recNew ⟨999⟩ recOld (by decide)⟩

/-- C9: `Upsert` only touches the entry keyed by the incoming record's
identifier; lookups of every other key are unchanged. -/
theorem c9_upsert_frame (store : List (String × Conversation))
    (conv : Conversation) (now : GoTime) (k : String) (h : k ≠ conv.ID) :
    goLookup (upsert store conv now) k = goLookup store k := by
  obtain ⟨c, hc⟩ := upsert_eq_goInsert store conv now
  rw [hc, goLookup_goInsert_ne _ _ _ _ h]

/-- Witness for C9: upserting `id1` leaves the `id2` entry untouched. -/
theorem c9_upsert_frame_witness :
    "id2" ≠ recNew.ID ∧
    goLookup (upsert storeEx recNew ⟨999⟩) "id2" = goLookup storeEx "id2" :=
  ⟨by decide, c9_upsert_frame storeEx recNew ⟨999⟩ "id2" (by decide)⟩

/-- C8 counterexample: a legitimately-zero epoch timestamp (0.0 seconds
since epoch) decodes to the Unix epoch instant, which is not Go's zero
instant, and is therefore kept — not dropped as the claim states. -/
theorem c8_counterexample :
    toTime (some ⟨0, 0⟩) ≠ none ∧ toTime (some ⟨0, 0⟩) = some ⟨0⟩ ∧
    GoTime.isZero ⟨0⟩ = false := by decide

/-- C8 (amended): a timestamp is dropped as absent exactly when its
decoded instant equals Go's zero instant (January 1, year 1); the
epoch-zero value 0.0 decodes to the Unix epoch and is kept. -/
theorem c8_zero_instant :
    (∀ v : TS, toTime (some v) = none ↔
      (⟨v.sec * 1000000000 + v.nsec⟩ : GoTime) = goZeroTime) ∧
    toTime (some ⟨0, 0⟩) = some ⟨0⟩ := by
  constructor
  · intro v
    simp only [toTime, GoTime.isZero]
    by_cases h : v.sec * 1000000000 + v.nsec = goZeroNs
    · simp [h, goZeroTime]
    · simp [h, goZeroTime, GoTime.mk.injEq]
  · decide


/-! ### Lemmas about the parent walk -/

theorem length_filter_mono {α : Type} (p q : α → Bool)
    (h : ∀ x, p x = true → q x = true) (l : List α) :
    (l.filter p).length ≤ (l.filter q).length := by
  induction l with
  | nil => simp
  | cons x l ih =>
    simp only [List.filter_cons]
    cases hp : p x with
    | true =>
      simp only [h x hp, if_true, List.length_cons]
      omega
    | false =>
      simp only [Bool.false_eq_true, if_false]
      cases hq : q x with
      | true =>
        simp only [if_true, List.length_cons]
        omega
      | false =>
        simpa using ih

theorem goLookup_mem_keys {α : Type} {m : List (String × α)} {k : String} {v : α}
    (h : goLookup m k = some v) : k ∈ m.map Prod.fst := by
  induction m with
  | nil => simp [goLookup] at h
  | cons p rest ih =>
    obtain ⟨k', v'⟩ := p
    by_cases hk : k' = k
    · simp [hk]
    · simp only [goLookup, if_neg hk] at h
      simp [ih h]

theorem goLookup_mem_pair {α : Type} {m : List (String × α)} {k : String} {v : α}
    (h : goLookup m k = some v) : (k, v) ∈ m := by
  induction m with
  | nil => simp [goLookup] at h
  | cons p rest ih =>
    obtain ⟨k', v'⟩ := p
    by_cases hk : k' = k
    · subst hk
      have h' : v' = v := by simpa [goLookup] using h
      simp [h']
    · simp only [goLookup, if_neg hk] at h
      simp [ih h]

theorem filter_unseen_cons_lt (K seen : List String) (k : String)
    (hk : k ∈ K) (hs : seen.contains k = false) :
    (K.filter (fun x => !(k :: seen).contains x)).length <
      (K.filter (fun x => !seen.contains x)).length := by
  induction K with
  | nil => cases hk
  | cons x rest ih =>
    simp only [List.filter_cons]
    by_cases hx : x = k
    · subst hx
      have hnew : (!(x :: seen).contains x) = false := by simp
      have hold : (!seen.contains x) = true := by rw [hs]; rfl
      rw [hnew, hold]
      simp only [Bool.false_eq_true, if_false, if_true, List.length_cons]
      have hmono : ∀ y, (!(x :: seen).contains y) = true → (!seen.contains y) = true := by
        intro y hy
        simp only [List.contains_cons, Bool.not_or, Bool.and_eq_true,
          Bool.not_eq_true'] at hy ⊢
        exact hy.2
      have := length_filter_mono _ _ hmono rest
      omega
    · have hk' : k ∈ rest := by
        rcases List.mem_cons.mp hk with h1 | h1
        · exact absurd h1.symm hx
        · exact h1
      have hxk : (x == k) = false := by
        simpa using hx
      have hcont : ((k :: seen).contains x) = seen.contains x := by
        rw [List.contains_cons, hxk, Bool.false_or]
      rw [hcont]
      have := ih hk'
      cases hsx : seen.contains x with
      | true =>
        simp only [hsx, Bool.not_true, Bool.false_eq_true, if_false]
        exact this
      | false =>
        simp only [hsx, Bool.not_false, if_true, List.length_cons]
        omega

theorem walkMeasure_lt (mapping : List (String × ExportNode)) (seen : List String)
    (k : String) (hk : k ∈ mapping.map Prod.fst) (hs : seen.contains k = false) :
    walkMeasure mapping (k :: seen) < walkMeasure mapping seen :=
  filter_unseen_cons_lt (mapping.map Prod.fst) seen k hk hs

theorem walkAux_stable (mapping : List (String × ExportNode)) :
    ∀ (f₁ : Nat), ∀ (f₂ : Nat) (seen : List String) (nodeID : String),
      walkMeasure mapping seen < f₁ → walkMeasure mapping seen < f₂ →
      walkAux mapping f₁ seen nodeID = walkAux mapping f₂ seen nodeID := by
  intro f₁
  induction f₁ with
  | zero =>
    intro f₂ seen nodeID h₁ h₂
    omega
  | succ n ih =>
    intro f₂ seen nodeID h₁ h₂
    cases f₂ with
    | zero => omega
    | succ m =>
      simp only [walkAux]
      by_cases hid : nodeID = ""
      · simp [hid]
      · simp only [if_neg hid]
        cases hlk : goLookup mapping nodeID with
        | none => rfl
        | some node =>
          by_cases hseen : nodeID ∈ seen
          · simp [hseen]
          · have hc : seen.contains nodeID = false := by simpa using hseen
            have hkey : nodeID ∈ mapping.map Prod.fst := goLookup_mem_keys hlk
            have hlt := walkMeasure_lt mapping seen nodeID hkey hc
            simp only [hc, Bool.false_eq_true, if_false, List.cons.injEq, true_and]
            exact ih m (nodeID :: seen) node.Parent (by omega) (by omega)

theorem walkAux_length_le (mapping : List (String × ExportNode)) :
    ∀ (fuel : Nat) (seen : List String) (nodeID : String),
      (walkAux mapping fuel seen nodeID).length ≤ fuel := by
  intro fuel
  induction fuel with
  | zero =>
    intro seen nodeID
    simp [walkAux]
  | succ n ih =>
    intro seen nodeID
    simp only [walkAux]
    by_cases hid : nodeID = ""
    · simp [hid]
    · simp only [if_neg hid]
      cases hlk : goLookup mapping nodeID with
      | none => simp
      | some node =>
        by_cases hseen : nodeID ∈ seen
        · simp [hseen]
        · have hc : seen.contains nodeID = false := by simpa using hseen
          simp only [hc, Bool.false_eq_true, if_false, List.length_cons]
          have := ih (nodeID :: seen) node.Parent
          omega

/-- C6: the parent walk terminates on every conversation graph, cyclic
chains included: every fuel of at least `|mapping| + 1` yields the same
finite path as the reference walk, whose length is bounded by
`|mapping| + 1`. -/
theorem c6_walk_terminates (raw : ExportConversation) (fuel : Nat)
    (h : raw.Mapping.length + 1 ≤ fuel) :
    walkAux raw.Mapping fuel [] raw.CurrentNode = traversalWalk raw ∧
    (traversalWalk raw).length ≤ raw.Mapping.length + 1 := by
  have hm : walkMeasure raw.Mapping [] ≤ raw.Mapping.length := by
    unfold walkMeasure
    have := List.length_filter_le (fun k => !([] : List String).contains k)
      (raw.Mapping.map Prod.fst)
    simp only [List.length_map] at this
    exact this
  refine ⟨?_, walkAux_length_le raw.Mapping _ [] raw.CurrentNode⟩
  exact walkAux_stable raw.Mapping fuel (raw.Mapping.length + 1) [] raw.CurrentNode
    (by omega) (by omega)

/-- Witness for C6 at the cyclic conversation `A ↔ B`: generous fuel
agrees with the reference walk, and the path is finite (length at most
three). -/
theorem c6_walk_terminates_witness :
    exCyc.Mapping.length + 1 ≤ 10 ∧
    walkAux exCyc.Mapping 10 [] exCyc.CurrentNode = traversalWalk exCyc ∧
    (traversalWalk exCyc).length ≤ exCyc.Mapping.length + 1 :=
  ⟨by decide, (c6_walk_terminates exCyc 10 (by decide)).1,
    (c6_walk_terminates exCyc 10 (by decide)).2⟩

/-- C7 counterexample: on the cycle `A ↔ B` entered at `A`, the walk
appends the repeated node before the cycle guard stops, so the path
handed to the normalizer is `A, B, A` — the node id `A` appears twice,
contradicting the claimed deduplication. -/
theorem c7_counterexample :
    (traversalPath exCyc).map ExportNode.ID = ["A", "B", "A"] ∧
    ¬ ((traversalPath exCyc).map ExportNode.ID).Nodup := by decide

theorem walkAux_keys_dropLast_nodup (mapping : List (String × ExportNode)) :
    ∀ (fuel : Nat) (seen : List String) (nodeID : String),
      (((walkAux mapping fuel seen nodeID).map Prod.fst).dropLast).Nodup ∧
      ∀ k ∈ ((walkAux mapping fuel seen nodeID).map Prod.fst).dropLast,
        k ∉ seen := by
  intro fuel
  induction fuel with
  | zero =>
    intro seen nodeID
    simp [walkAux]
  | succ n ih =>
    intro seen nodeID
    simp only [walkAux]
    by_cases hid : nodeID = ""
    · simp [hid]
    · simp only [if_neg hid]
      cases hlk : goLookup mapping nodeID with
      | none => simp
      | some node =>
        by_cases hseen : nodeID ∈ seen
        · simp [hseen]
        · have hc : seen.contains nodeID = false := by simpa using hseen
          simp only [hc, Bool.false_eq_true, if_false]
          obtain ⟨ihn, ihs⟩ := ih (nodeID :: seen) node.Parent
          cases hks : (walkAux mapping n (nodeID :: seen) node.Parent).map Prod.fst with
          | nil => simp [hks]
          | cons y ys =>
            rw [hks] at ihn ihs
            simp only [List.map_cons, hks, List.dropLast_cons₂, List.nodup_cons]
            constructor
            · constructor
              · intro hmem
                exact (ihs nodeID hmem) (List.mem_cons_self _ _)
              · exact ihn
            · intro k hk
              rcases List.mem_cons.mp hk with rfl | hk'
              · exact hseen
              · intro hkseen
                exact (ihs k hk') (List.mem_cons_of_mem _ hkseen)

/-- C7 (amended): the parent walk stops at the first repeated node id,
but only after appending the repeated node once more; hence all visited
node ids are pairwise distinct except that the final one may repeat an
earlier id, and no id occurs more than twice in the path handed to the
normalizer. -/
theorem c7_walk_almost_dedup (raw : ExportConversation) :
    (((traversalWalk raw).map Prod.fst).dropLast).Nodup ∧
    ∀ k : String, ((traversalWalk raw).map Prod.fst).count k ≤ 2 := by
  obtain ⟨h1, -⟩ := walkAux_keys_dropLast_nodup raw.Mapping
    (raw.Mapping.length + 1) [] raw.CurrentNode
  refine ⟨h1, ?_⟩
  intro k
  by_cases hne : (traversalWalk raw).map Prod.fst = []
  · simp [hne]
  · have hsplit := List.dropLast_append_getLast hne
    have hcount : ((traversalWalk raw).map Prod.fst).count k =
        (((traversalWalk raw).map Prod.fst).dropLast).count k +
          ([((traversalWalk raw).map Prod.fst).getLast hne]).count k := by
      conv_lhs => rw [← hsplit]
      exact List.count_append k _ _
    have hd : (((traversalWalk raw).map Prod.fst).dropLast).count k ≤ 1 :=
      List.nodup_iff_count_le_one.mp h1 k
    have hl : ([((traversalWalk raw).map Prod.fst).getLast hne]).count k ≤ 1 := by
      have := List.count_le_length k [((traversalWalk raw).map Prod.fst).getLast hne]
      simpa using this
    omega

/-! ### Lemmas about the fallback comparator -/

theorem goCharListLt_asymm :
    ∀ (as bs : List Char), as ≠ bs → goCharListLt as bs = !goCharListLt bs as := by
  intro as
  induction as with
  | nil =>
    intro bs h
    cases bs with
    | nil => exact absurd rfl h
    | cons b bs => simp [goCharListLt]
  | cons a as ih =>
    intro bs h
    cases bs with
    | nil => simp [goCharListLt]
    | cons b bs =>
      by_cases hab : a = b
      · subst hab
        have hne : as ≠ bs := by
          intro hh
          exact h (by rw [hh])
        simp [goCharListLt, ih bs hne]
      · simp only [goCharListLt, if_neg hab, if_neg (Ne.symm hab)]
        by_cases hlt : a < b
        · simp [hlt, lt_asymm hlt]
        · have hgt : b < a := lt_of_le_of_ne (le_of_not_lt hlt) (Ne.symm hab)
          simp [hlt, hgt, lt_asymm hgt]

theorem goCharListLt_trans :
    ∀ (as bs cs : List Char), goCharListLt as bs = true →
      goCharListLt bs cs = true → goCharListLt as cs = true := by
  intro as
  induction as with
  | nil =>
    intro bs cs h₁ h₂
    cases bs with
    | nil => simp [goCharListLt] at h₁
    | cons b bs =>
      cases cs with
      | nil => simp [goCharListLt] at h₂
      | cons c cs => simp [goCharListLt]
  | cons a as ih =>
    intro bs cs h₁ h₂
    cases bs with
    | nil => simp [goCharListLt] at h₁
    | cons b bs =>
      cases cs with
      | nil => simp [goCharListLt] at h₂
      | cons c cs =>
        simp only [goCharListLt] at h₁ h₂ ⊢
        by_cases hab : a = b <;> by_cases hbc : b = c
        · subst hab; subst hbc
          simp only [if_pos rfl] at h₁ h₂ ⊢
          exact ih bs cs h₁ h₂
        · subst hab
          simp only [if_pos rfl, if_neg hbc] at h₁ h₂
          simp only [if_neg hbc]
          exact h₂
        · subst hbc
          simp only [if_pos rfl, if_neg hab] at h₁ h₂
          simp only [if_neg hab]
          exact h₁
        · simp only [if_neg hab, if_neg hbc, decide_eq_true_eq] at h₁ h₂
          have hac : a < c := lt_trans h₁ h₂
          simp [ne_of_lt hac, hac]

theorem goStringLt_asymm {s t : String} (h : s ≠ t) :
    goStringLt s t = !goStringLt t s := by
  apply goCharListLt_asymm
  intro hd
  apply h
  cases s
  cases t
  exact congrArg String.mk (by simpa using hd)

theorem goStringLt_trans {s t u : String} (h₁ : goStringLt s t = true)
    (h₂ : goStringLt t u = true) : goStringLt s u = true :=
  goCharListLt_trans s.data t.data u.data h₁ h₂

theorem goTime_eq_iff (x y : GoTime) : x = y ↔ x.ns = y.ns := by
  cases x
  cases y
  simp

theorem length_insertBy {α : Type} (less : α → α → Bool) (a : α) (l : List α) :
    (insertBy less a l).length = l.length + 1 := by
  induction l with
  | nil => rfl
  | cons b l ih =>
    simp only [insertBy]
    split
    · simp
    · simp [ih]

theorem length_sortBy {α : Type} (less : α → α → Bool) (l : List α) :
    (sortBy less l).length = l.length := by
  induction l with
  | nil => rfl
  | cons a l ih =>
    simp [sortBy, length_insertBy, ih]

theorem mem_insertBy {α : Type} (less : α → α → Bool) (a x : α) (l : List α) :
    x ∈ insertBy less a l ↔ x = a ∨ x ∈ l := by
  induction l with
  | nil => simp [insertBy]
  | cons b l ih =>
    simp only [insertBy]
    split
    · simp [or_comm, or_assoc, or_left_comm]
    · simp only [List.mem_cons, ih]
      tauto

theorem mem_sortBy {α : Type} (less : α → α → Bool) (x : α) (l : List α) :
    x ∈ sortBy less l ↔ x ∈ l := by
  induction l with
  | nil => simp [sortBy]
  | cons a l ih =>
    simp [sortBy, mem_insertBy, ih]

/-- C4 counterexample: with one timestamped and one untimestamped node,
the fallback ordering places the node that has a timestamp first — nodes
lacking a timestamp sort after, not before, nodes that have one. -/
theorem c4_counterexample :
    timelineByTimestamps exMix = [exTsNode, exPlainNode] ∧
    (toTime (GetCreateTime exTsNode.Message)).isSome = true ∧
    (toTime (GetCreateTime exPlainNode.Message)).isSome = false ∧
    timelineByTimestamps exMix ≠ [exPlainNode, exTsNode] := by decide

/-- C4 (amended): in the timestamp-fallback ordering, nodes having a
timestamp sort before nodes lacking one; ties (equal or absent
timestamps) break by ascending node id; the comparator is asymmetric and
total on nodes with distinct ids and transitive, yielding a
deterministic total order. -/
theorem c4_timeline_order :
    (∀ a b : ExportNode, toTime (GetCreateTime a.Message) = none →
      (toTime (GetCreateTime b.Message)).isSome = true →
      timelineLess b a = true ∧ timelineLess a b = false) ∧
    (∀ a b : ExportNode,
      toTime (GetCreateTime a.Message) = toTime (GetCreateTime b.Message) →
      timelineLess a b = goStringLt a.ID b.ID) ∧
    (∀ a b : ExportNode, a.ID ≠ b.ID → timelineLess a b = !timelineLess b a) ∧
    (∀ a b c : ExportNode, timelineLess a b = true → timelineLess b c = true →
      timelineLess a c = true) := by
  refine ⟨?_, ?_, ?_, ?_⟩
  · intro a b ha hb
    obtain ⟨tb, hb'⟩ := Option.isSome_iff_exists.mp hb
    simp [timelineLess, ha, hb']
  · intro a b h
    cases hta : toTime (GetCreateTime a.Message) with
    | none =>
      have htb : toTime (GetCreateTime b.Message) = none := by rw [← h, hta]
      simp [timelineLess, hta, htb]
    | some t =>
      have htb : toTime (GetCreateTime b.Message) = some t := by rw [← h, hta]
      simp [timelineLess, hta, htb]
  · intro a b hne
    cases hta : toTime (GetCreateTime a.Message) with
    | none =>
      cases htb : toTime (GetCreateTime b.Message) with
      | none => simp [timelineLess, hta, htb, goStringLt_asymm hne]
      | some tb => simp [timelineLess, hta, htb]
    | some ta =>
      cases htb : toTime (GetCreateTime b.Message) with
      | none => simp [timelineLess, hta, htb]
      | some tb =>
        simp only [timelineLess, hta, htb]
        by_cases he : ta = tb
        · subst he
          simp [goStringLt_asymm hne]
        · have hne' : ¬ tb = ta := fun hh => he hh.symm
          have hnsne : ta.ns ≠ tb.ns := fun hh => he ((goTime_eq_iff ta tb).mpr hh)
          by_cases hlt : ta.ns < tb.ns
          · have : ¬ tb.ns < ta.ns := by omega
            simp [he, hne', hlt, this]
          · have : tb.ns < ta.ns := by omega
            simp [he, hne', hlt, this]
  · intro a b c hab hbc
    cases hta : toTime (GetCreateTime a.Message) with
    | none =>
      cases htb : toTime (GetCreateTime b.Message) with
      | none =>
        cases htc : toTime (GetCreateTime c.Message) with
        | none =>
          simp only [timelineLess, hta, htb, htc] at hab hbc ⊢
          exact goStringLt_trans hab hbc
        | some tc => simp [timelineLess, htb, htc] at hbc
      | some tb => simp [timelineLess, hta, htb] at hab
    | some ta =>
      cases htb : toTime (GetCreateTime b.Message) with
      | none =>
        cases htc : toTime (GetCreateTime c.Message) with
        | none => simp [timelineLess, hta, htc]
        | some tc => simp [timelineLess, htb, htc] at hbc
      | some tb =>
        cases htc : toTime (GetCreateTime c.Message) with
        | none => simp [timelineLess, hta, htc]
        | some tc =>
          simp only [timelineLess, hta, htb, htc] at hab hbc ⊢
          by_cases h1 : ta = tb <;> by_cases h2 : tb = tc
          · subst h1; subst h2
            simp only [if_pos rfl] at hab hbc ⊢
            exact goStringLt_trans hab hbc
          · subst h1
            simp only [if_pos rfl, if_neg h2] at hab hbc
            simp only [if_neg h2]
            exact hbc
          · subst h2
            simp only [if_pos rfl, if_neg h1] at hab hbc
            simp only [if_neg h1]
            exact hab
          · simp only [if_neg h1, if_neg h2, decide_eq_true_eq] at hab hbc
            have hac : ta.ns < tc.ns := by omega
            have hne : ¬ ta = tc := by
              intro hh
              rw [(goTime_eq_iff ta tc).mp hh] at hac
              omega
            simp [hne, hac]

/-- Witness for C4 at concrete nodes: a timestamped node precedes an
untimestamped one, a tie breaks by id, asymmetry holds for distinct ids,
and transitivity chains two comparisons. -/
theorem c4_timeline_order_witness :
    (timelineLess exTsNode exPlainNode = true ∧
      timelineLess exPlainNode exTsNode = false) ∧
    timelineLess exPlainNode exEmptyNode = goStringLt exPlainNode.ID exEmptyNode.ID ∧
    timelineLess exPlainNode exTsNode = !timelineLess exTsNode exPlainNode ∧
    timelineLess exTsNode exEmptyNode = true :=
  ⟨c4_timeline_order.1 exPlainNode exTsNode (by decide) (by decide),
    c4_timeline_order.2.1 exPlainNode exEmptyNode (by decide),
    c4_timeline_order.2.2.1 exPlainNode exTsNode (by decide),
    c4_timeline_order.2.2.2 exTsNode exPlainNode exEmptyNode (by decide) (by decide)⟩

/-- C10: the nil-safe accessor yields no timestamp for a node without a
message payload; such nodes are ordered as lacking a timestamp (after
timestamped nodes, among themselves by id), and the fallback ordering is
total: it returns exactly one entry per mapping node. -/
theorem c10_messageless_safe :
    (∀ node : ExportNode, node.Message = none →
      toTime (GetCreateTime node.Message) = none) ∧
    (∀ a b : ExportNode, a.Message = none →
      (toTime (GetCreateTime b.Message)).isSome = true →
      timelineLess b a = true ∧ timelineLess a b = false) ∧
    (∀ a b : ExportNode, a.Message = none → b.Message = none →
      timelineLess a b = goStringLt a.ID b.ID) ∧
    (∀ raw : ExportConversation,
      (timelineByTimestamps raw).length = raw.Mapping.length) := by
  refine ⟨?_, ?_, ?_, ?_⟩
  · intro node h
    rw [h]
    rfl
  · intro a b ha hb
    obtain ⟨tb, hb'⟩ := Option.isSome_iff_exists.mp hb
    have ha' : toTime (GetCreateTime a.Message) = none := by rw [ha]; rfl
    simp [timelineLess, ha', hb']
  · intro a b ha hb
    have ha' : toTime (GetCreateTime a.Message) = none := by rw [ha]; rfl
    have hb' : toTime (GetCreateTime b.Message) = none := by rw [hb]; rfl
    simp [timelineLess, ha', hb']
  · intro raw
    rw [timelineByTimestamps, length_sortBy, List.length_map]

/-- Witness for C10 at concrete nodes: the messageless node has no
timestamp, sorts after the timestamped node, ties with another
messageless node break by id, and the fallback retains both mapping
nodes. -/
theorem c10_messageless_safe_witness :
    toTime (GetCreateTime exPlainNode.Message) = none ∧
    (timelineLess exTsNode exPlainNode = true ∧
      timelineLess exPlainNode exTsNode = false) ∧
    timelineLess exPlainNode exEmptyNode = goStringLt exPlainNode.ID exEmptyNode.ID ∧
    (timelineByTimestamps exMix).length = exMix.Mapping.length :=
  ⟨c10_messageless_safe.1 exPlainNode (by decide),
    c10_messageless_safe.2.1 exPlainNode exTsNode (by decide) (by decide),
    c10_messageless_safe.2.2.1 exPlainNode exEmptyNode (by decide) (by decide),
    c10_messageless_safe.2.2.2 exMix⟩

/-! ### Lemmas about summaries and truncation -/

theorem length_dropWhile_le {α : Type} (p : α → Bool) (l : List α) :
    (l.dropWhile p).length ≤ l.length := by
  induction l with
  | nil => simp
  | cons x l ih =>
    rw [List.dropWhile_cons]
    split
    · simp only [List.length_cons]
      omega
    · simp

theorem goTrimSpace_length_le (s : String) : (goTrimSpace s).length ≤ s.length := by
  have h1 := length_dropWhile_le isGoSpace s.data
  have h2 := length_dropWhile_le isGoSpace (s.data.dropWhile isGoSpace).reverse
  calc (goTrimSpace s).length
      = (((s.data.dropWhile isGoSpace).reverse.dropWhile isGoSpace).reverse).length := by
        rw [goTrimSpace, String.length_mk]
    _ = ((s.data.dropWhile isGoSpace).reverse.dropWhile isGoSpace).length :=
        List.length_reverse _
    _ ≤ (s.data.dropWhile isGoSpace).reverse.length := h2
    _ = (s.data.dropWhile isGoSpace).length := List.length_reverse _
    _ ≤ s.data.length := h1
    _ = s.length := rfl

theorem truncate_length_le (s : String) (limit : Nat) :
    (truncate s limit).length ≤ limit + 3 := by
  unfold truncate
  split
  · omega
  · have htake : (String.mk (s.data.take limit)).length ≤ limit := by
      rw [String.length_mk]
      have := List.length_take limit s.data
      omega
    have htrim : (goTrimSpace (String.mk (s.data.take limit))).length ≤ limit :=
      le_trans (goTrimSpace_length_le _) htake
    dsimp only
    split
    · omega
    · rw [String.length_append]
      have : ("..." : String).length = 3 := rfl
      omega

theorem summaryOf_length_le (raw : ExportConversation) :
    (summaryOf raw).length ≤ 243 := by
  unfold summaryOf
  dsimp only
  split
  · decide
  · exact le_trans (truncate_length_le _ 240) (by omega)

theorem convertConversation_eq_build {raw : ExportConversation} {now : GoTime}
    {rec : Conversation} (h : convertConversation raw now = some rec) :
    rec = buildRecord raw now := by
  unfold convertConversation at h
  by_cases h1 : raw.Mapping.length = 0
  · simp [h1] at h
  · by_cases h2 : (traversalPath raw).length = 0
    · simp [h1, h2] at h
    · simp only [h1, h2, if_false] at h
      exact (Option.some.injEq _ _ ▸ h).symm

set_option maxRecDepth 16384 in
set_option maxHeartbeats 1000000 in
/-- C3 counterexample: the 300-`'a'` user message yields a summary of
243 characters (240 kept characters plus a three-character ellipsis),
not 240; its first 240 characters match the source text. -/
theorem c3_counterexample :
    (convertConversation exLong ⟨0⟩).map (fun r => r.Summary.length) = some 243 ∧
    (convertConversation exLong ⟨0⟩).map (fun r => r.Summary.length) ≠ some 240 ∧
    (convertConversation exLong ⟨0⟩).map
      (fun r => r.Summary.data.take 240) = some (List.replicate 240 'a') ∧
    (convertConversation exLong ⟨0⟩).map
      (fun r => goHasSuffix r.Summary "...") = some true := by decide

set_option maxRecDepth 16384 in
set_option maxHeartbeats 1000000 in
/-- C3 (amended): the 300-`'a'` summary is exactly 243 characters — the
first 240 characters of the source followed by the ellipsis marker — and
in general a derived summary is at most 243 characters (240 plus the
appended ellipsis). -/
theorem c3_summary_bound :
    ((convertConversation exLong ⟨0⟩).map
      (fun r => (r.Summary.length, r.Summary.data.take 240, goHasSuffix r.Summary "...")) =
      some (243, List.replicate 240 'a', true)) ∧
    (∀ (raw : ExportConversation) (now : GoTime) (rec : Conversation),
      convertConversation raw now = some rec → rec.Summary.length ≤ 243) := by
  constructor
  · decide
  · intro raw now rec h
    rw [convertConversation_eq_build h]
    exact summaryOf_length_le raw

/-- Witness for C3 at the hello example: its record's summary respects
the 243-character bound. -/
theorem c3_summary_bound_witness :
    convertConversation exHello ⟨0⟩ = some (buildRecord exHello ⟨0⟩) ∧
    (buildRecord exHello ⟨0⟩).Summary.length ≤ 243 :=
  ⟨rfl, c3_summary_bound.2 exHello ⟨0⟩ (buildRecord exHello ⟨0⟩) rfl⟩

/-! ### Lemmas about contentless conversations -/

theorem walkAux_mem (mapping : List (String × ExportNode)) :
    ∀ (fuel : Nat) (seen : List String) (nodeID : String)
      (p : String × ExportNode), p ∈ walkAux mapping fuel seen nodeID →
      goLookup mapping p.1 = some p.2 := by
  intro fuel
  induction fuel with
  | zero =>
    intro seen nodeID p hp
    simp [walkAux] at hp
  | succ n ih =>
    intro seen nodeID p hp
    simp only [walkAux] at hp
    by_cases hid : nodeID = ""
    · simp [hid] at hp
    · simp only [if_neg hid] at hp
      cases hlk : goLookup mapping nodeID with
      | none =>
        rw [hlk] at hp
        simp at hp
      | some node =>
        rw [hlk] at hp
        dsimp only at hp
        rcases List.mem_cons.mp hp with rfl | hp'
        · exact hlk
        · by_cases hseen : seen.contains nodeID
          · rw [hseen] at hp'
            simp at hp'
          · have hc : seen.contains nodeID = false := by simpa using hseen
            rw [hc] at hp'
            simp only [Bool.false_eq_true, if_false] at hp'
            exact ih (nodeID :: seen) node.Parent p hp'

theorem mem_traversalPath {raw : ExportConversation} {n : ExportNode}
    (h : n ∈ traversalPath raw) : n ∈ raw.Mapping.map Prod.snd := by
  unfold traversalPath at h
  by_cases hcur : raw.CurrentNode = ""
  · rw [if_pos hcur] at h
    exact (mem_sortBy _ _ _).mp h
  · rw [if_neg hcur] at h
    dsimp only at h
    split at h
    · exact (mem_sortBy _ _ _).mp h
    · rw [List.mem_reverse] at h
      obtain ⟨p, hp, hpn⟩ := List.mem_map.mp h
      have := walkAux_mem raw.Mapping (raw.Mapping.length + 1) [] raw.CurrentNode p hp
      have hpair := goLookup_mem_pair this
      exact List.mem_map.mpr ⟨p, hpair, hpn⟩

theorem traversalPath_ne_nil {raw : ExportConversation} (h : raw.Mapping ≠ []) :
    traversalPath raw ≠ [] := by
  have hlen : (timelineByTimestamps raw).length = raw.Mapping.length := by
    rw [timelineByTimestamps, length_sortBy, List.length_map]
  have hlz : raw.Mapping.length ≠ 0 := by
    intro hz
    exact h (List.length_eq_zero.mp hz)
  have hmne : (timelineByTimestamps raw) ≠ [] := by
    intro hh
    apply hlz
    rw [← hlen, hh]
    rfl
  unfold traversalPath
  by_cases hcur : raw.CurrentNode = ""
  · rw [if_pos hcur]
    exact hmne
  · rw [if_neg hcur]
    dsimp only
    split
    · exact hmne
    · rename_i hlen2
      intro hh
      apply hlen2
      rw [hh]
      rfl

theorem extractText_contentless {m : ExportMessage}
    (h : (!(m.Content.ContentType = "text" ||
      m.Content.ContentType = "multimodal_text")) = true) :
    extractText m.Content = "" := by
  simp only [Bool.not_eq_true', Bool.or_eq_false_iff, decide_eq_false_iff_not] at h
  simp [extractText, h.1, h.2]

theorem stepNode_contentless {st : FoldSt} {node : ExportNode}
    (h : contentless node = true)
    (hp : st.firstUser = "" ∧ st.firstAssistant = "" ∧ st.messages = []) :
    (stepNode st node).firstUser = "" ∧ (stepNode st node).firstAssistant = "" ∧
      (stepNode st node).messages = [] := by
  cases hm : node.Message with
  | none => simpa [stepNode, hm] using hp
  | some m =>
    unfold contentless at h
    rw [hm] at h
    have htext : extractText m.Content = "" := extractText_contentless h
    cases hts : toTime m.CreateTime with
    | none => simpa [stepNode, hm, hts, htext] using hp
    | some ts => simpa [stepNode, hm, hts, htext] using hp

theorem foldl_contentless :
    ∀ (nodes : List ExportNode), (∀ n ∈ nodes, contentless n = true) →
    ∀ st : FoldSt,
      st.firstUser = "" ∧ st.firstAssistant = "" ∧ st.messages = [] →
      ((nodes.foldl stepNode st).firstUser = "" ∧
        (nodes.foldl stepNode st).firstAssistant = "" ∧
        (nodes.foldl stepNode st).messages = []) := by
  intro nodes
  induction nodes with
  | nil =>
    intro h st hp
    simpa using hp
  | cons n nodes ih =>
    intro h st hp
    have hn : contentless n = true := h n (List.mem_cons_self _ _)
    have hrest : ∀ x ∈ nodes, contentless x = true := fun x hx =>
      h x (List.mem_cons_of_mem _ hx)
    simp only [List.foldl_cons]
    exact ih hrest (stepNode st n) (stepNode_contentless hn hp)

/-- C5 counterexample: a conversation whose only node has no message
payload is not excluded — the pipeline emits a record for it, so the
output list has the same length as the input. -/
theorem c5_counterexample :
    (∀ p ∈ exBare.Mapping, contentless p.2 = true) ∧
    (loadAndConvert [exBare] ⟨0⟩).length = 1 ∧
    convertConversation exBare ⟨0⟩ ≠ none := by decide

/-- C5 (amended): a conversation whose non-empty mapping contains only
messageless nodes (or only non-`"text"`/`"multimodal_text"` content
types) still produces a record: one with an empty message list and the
placeholder summary; only an empty mapping excludes a conversation. -/
theorem c5_contentless_record (raw : ExportConversation) (now : GoTime)
    (h1 : raw.Mapping ≠ [])
    (h2 : ∀ p ∈ raw.Mapping, contentless p.2 = true) :
    convertConversation raw now = some (buildRecord raw now) ∧
    (buildRecord raw now).Messages = [] ∧
    (buildRecord raw now).Summary = "No summary available" := by
  have hall : ∀ n ∈ traversalPath raw, contentless n = true := by
    intro n hn
    obtain ⟨p, hp, hpn⟩ := List.mem_map.mp (mem_traversalPath hn)
    rw [← hpn]
    exact h2 p hp
  have hst := foldl_contentless (traversalPath raw) hall initSt
    ⟨rfl, rfl, rfl⟩
  have hguard1 : ¬ raw.Mapping.length = 0 := by
    intro hz
    exact h1 (List.length_eq_zero.mp hz)
  have hguard2 : ¬ (traversalPath raw).length = 0 := by
    intro hz
    exact traversalPath_ne_nil h1 (List.length_eq_zero.mp hz)
  refine ⟨?_, ?_, ?_⟩
  · simp [convertConversation, hguard1, hguard2]
  · rw [buildRecord_Messages]
    exact hst.2.2
  · rw [buildRecord_Summary]
    unfold summaryOf foldStateOf
    rw [hst.1, hst.2.1]
    rfl

/-- Witness for C5 at the bare conversation: the record exists, carries
no messages, and uses the placeholder summary. -/
theorem c5_contentless_record_witness :
    exBare.Mapping ≠ [] ∧
    convertConversation exBare ⟨0⟩ = some (buildRecord exBare ⟨0⟩) ∧
    (buildRecord exBare ⟨0⟩).Messages = [] ∧
    (buildRecord exBare ⟨0⟩).Summary = "No summary available" :=
  ⟨by decide,
    (c5_contentless_record exBare ⟨0⟩ (by decide) (by decide)).1,
    (c5_contentless_record exBare ⟨0⟩ (by decide) (by decide)).2.1,
    (c5_contentless_record exBare ⟨0⟩ (by decide) (by decide)).2.2⟩

/-! ### Lemmas about determinism of the pipeline -/

theorem earliestOf_of_derivesCreate {raw : ExportConversation}
    (h : derivesCreate raw = true) : ∃ e, earliestOf raw = some e :=
  Option.isSome_iff_exists.mp (by simpa [derivesCreate] using h)

theorem createdAtOf_indep {raw : ExportConversation}
    (h : derivesCreate raw = true) (now₁ now₂ : GoTime) :
    createdAtOf raw now₁ = createdAtOf raw now₂ := by
  obtain ⟨e, hE⟩ := earliestOf_of_derivesCreate h
  unfold createdAtOf
  rw [hE]

theorem updatedAtOf_indep {raw : ExportConversation}
    (h : derivesCreate raw = true) (now₁ now₂ : GoTime) :
    updatedAtOf raw now₁ = updatedAtOf raw now₂ := by
  unfold updatedAtOf
  cases hL : latestOf raw with
  | none => exact createdAtOf_indep h now₁ now₂
  | some l => rfl

theorem idOf_indep {raw : ExportConversation}
    (h : derivesCreate raw = true) (now₁ now₂ : GoTime) :
    idOf raw now₁ = idOf raw now₂ := by
  unfold idOf
  rw [createdAtOf_indep h now₁ now₂]

theorem buildRecord_indep {raw : ExportConversation}
    (h : derivesCreate raw = true) (now₁ now₂ : GoTime) :
    buildRecord raw now₁ = buildRecord raw now₂ := by
  unfold buildRecord
  rw [createdAtOf_indep h now₁ now₂, updatedAtOf_indep h now₁ now₂,
    idOf_indep h now₁ now₂]

theorem newDeterministicID_ne_empty (seed : String) (t : GoTime) :
    newDeterministicID seed t ≠ "" := by
  unfold newDeterministicID
  dsimp only
  intro hcontr
  have hlen : ((if goReplaceSpaceDash (goToLower seed) = "" then "conversation"
      else goReplaceSpaceDash (goToLower seed)) ++ "-" ++ formatStamp t).length = 0 := by
    rw [hcontr]
    rfl
  rw [String.length_append, String.length_append] at hlen
  have hone : ("-" : String).length = 1 := rfl
  omega

theorem convertConversation_indep {raw : ExportConversation}
    (h : derivesCreate raw = true) (now₁ now₂ : GoTime) :
    convertConversation raw now₁ = convertConversation raw now₂ := by
  unfold convertConversation
  rw [buildRecord_indep h now₁ now₂]

theorem idOf_ne_empty (raw : ExportConversation) (now : GoTime) :
    idOf raw now ≠ "" := by
  unfold idOf
  dsimp only
  split <;> (try split) <;>
    first
      | exact newDeterministicID_ne_empty _ _
      | assumption

/-- C1 counterexample: on an export with no identifiers and no
timestamps, the fallback identifier incorporates the wall-clock instant,
so two runs of the pipeline on identical bytes at different times yield
different record lists — the pipeline is not deterministic for every
export. -/
theorem c1_counterexample :
    loadAndConvert [exBare] ⟨0⟩ ≠ loadAndConvert [exBare] ⟨1000000000⟩ ∧
    (loadAndConvert [exBare] ⟨0⟩).map Conversation.ID ≠
      (loadAndConvert [exBare] ⟨1000000000⟩).map Conversation.ID := by decide

/-- C1 (amended): the pipeline is deterministic — independent of the
wall-clock instant — for every conversation that derives a creation
instant from the export itself (some message timestamp, or a parseable
conversation-level create time); for such payloads two runs yield
identical record lists.  The chosen identifier is always non-empty,
including the slug-and-instant fallback. -/
theorem c1_pipeline_deterministic :
    (∀ (raw : ExportConversation) (now₁ now₂ : GoTime),
      derivesCreate raw = true →
      convertConversation raw now₁ = convertConversation raw now₂) ∧
    (∀ (payload : List ExportConversation) (now₁ now₂ : GoTime),
      (∀ raw ∈ payload, derivesCreate raw = true) →
      loadAndConvert payload now₁ = loadAndConvert payload now₂) ∧
    (∀ (raw : ExportConversation) (now : GoTime) (rec : Conversation),
      convertConversation raw now = some rec → rec.ID ≠ "") := by
  refine ⟨?_, ?_, ?_⟩
  · intro raw now₁ now₂ h
    exact convertConversation_indep h now₁ now₂
  · intro payload now₁ now₂ h
    induction payload with
    | nil => rfl
    | cons raw rest ih =>
      have hr : derivesCreate raw = true := h raw (List.mem_cons_self _ _)
      have hrest : ∀ x ∈ rest, derivesCreate x = true := fun x hx =>
        h x (List.mem_cons_of_mem _ hx)
      simp only [loadAndConvert, List.filterMap_cons]
      rw [convertConversation_indep hr now₁ now₂]
      have ihr := ih hrest
      simp only [loadAndConvert] at ihr
      rw [ihr]
  · intro raw now rec hcv
    rw [convertConversation_eq_build hcv, buildRecord_ID]
    exact idOf_ne_empty raw now

/-- Witness for C1 at the hello example: its creation instant is derived
from the export, two runs at different instants agree, and the produced
identifier is non-empty. -/
theorem c1_pipeline_deterministic_witness :
    derivesCreate exHello = true ∧
    convertConversation exHello ⟨0⟩ = convertConversation exHello ⟨999⟩ ∧
    loadAndConvert [exHello] ⟨0⟩ = loadAndConvert [exHello] ⟨999⟩ ∧
    (buildRecord exHello ⟨0⟩).ID ≠ "" :=
  ⟨by decide,
    c1_pipeline_deterministic.1 exHello ⟨0⟩ ⟨999⟩ (by decide),
    c1_pipeline_deterministic.2.1 [exHello] ⟨0⟩ ⟨999⟩ (by decide),
    c1_pipeline_deterministic.2.2 exHello ⟨0⟩ (buildRecord exHello ⟨0⟩) rfl⟩
